import Mathlib

/-!
Shallow embedding of the reactive stream core exercised by
`src/src/app/app.component.ts`. The component only calls into a reactive
streams library, so the specification defines a minimal synchronous core
(observable execution, operator pipelines, subjects, combinators); the
definitions below model that core from the spec and instantiate it at the
exact scenarios the component builds (`of(1,2,3,4,5)` piped through
`filter`/`map`, `catchError` over an erroring source, a `BehaviorSubject`
and a plain `Subject`, a cold observable subscribed twice, `combineLatest`
over two synchronous finite sources, and `getData`'s HTTP pipeline).
-/

/-- A notification delivered to an observer: a value, an error, or
completion.  Errors are carried as strings, matching the string errors used
throughout the component. -/
inductive Notification (α : Type) where
  | next (v : α)
  | error (e : String)
  | complete
  deriving DecidableEq, Repr

/-- Modelled from the spec: the subscriber wrapper installed by `subscribe`
stops delivery at the first terminal notification, so an observer never
sees anything after an `error` or `complete`. -/
def guardTrace {α : Type} : List (Notification α) → List (Notification α)
  | [] => []
  | Notification.next v :: rest => Notification.next v :: guardTrace rest
  | Notification.error e :: _ => [Notification.error e]
  | Notification.complete :: _ => [Notification.complete]

/-- The values (`onNext` payloads) of a notification trace, in order. -/
def values {α : Type} : List (Notification α) → List α
  | [] => []
  | Notification.next v :: rest => v :: values rest
  | Notification.error _ :: rest => values rest
  | Notification.complete :: rest => values rest

/-- The errors (`onError` payloads) of a notification trace, in order. -/
def errorsOf {α : Type} : List (Notification α) → List String
  | [] => []
  | Notification.error e :: rest => e :: errorsOf rest
  | Notification.next _ :: rest => errorsOf rest
  | Notification.complete :: rest => errorsOf rest

/-- Modelled from the spec: a cold Observable is a producer that, on each
subscription, pushes the notifications `raw` in order and performs the
console side effects `log`.  Both are replayed in full on every
subscription (cold semantics). -/
structure Observable (α : Type) where
  raw : List (Notification α)
  log : List String
  deriving Repr

/-- The notification sequence one subscription delivers to its observer:
the producer's pushes, cut off at the first terminal notification. -/
def Observable.subscribeTrace {α : Type} (o : Observable α) : List (Notification α) :=
  guardTrace o.raw

/-- Creation operator `of(x1, ..., xn)`: emits the given values synchronously, then
completes; no side effects. -/
def of {α : Type} (xs : List α) : Observable α :=
  ⟨xs.map Notification.next ++ [Notification.complete], []⟩

/-- Operator `map f` on a notification trace: transforms each value, forwards
terminal notifications unchanged. -/
def mapTrace {α β : Type} (f : α → β) : List (Notification α) → List (Notification β)
  | [] => []
  | Notification.next v :: rest => Notification.next (f v) :: mapTrace f rest
  | Notification.error e :: rest => Notification.error e :: mapTrace f rest
  | Notification.complete :: rest => Notification.complete :: mapTrace f rest

/-- Operator `filter p` on a notification trace: forwards `next v` only when
`p v = true`; terminal notifications pass unchanged. -/
def filterTrace {α : Type} (p : α → Bool) : List (Notification α) → List (Notification α)
  | [] => []
  | Notification.next v :: rest =>
      if p v then Notification.next v :: filterTrace p rest else filterTrace p rest
  | Notification.error e :: rest => Notification.error e :: filterTrace p rest
  | Notification.complete :: rest => Notification.complete :: filterTrace p rest

/-- Operator `catchError h` on a notification trace: on the first `error e`, the
rest of the upstream trace is replaced by the substitute tail `h e`;
values and completion pass through. -/
def catchErrorTrace {α : Type} (h : String → List (Notification α)) :
    List (Notification α) → List (Notification α)
  | [] => []
  | Notification.next v :: rest => Notification.next v :: catchErrorTrace h rest
  | Notification.error e :: _ => h e
  | Notification.complete :: rest => Notification.complete :: catchErrorTrace h rest

/-- The `map` operator: subscribes to the source internally and forwards
the transformed notification stream downstream. -/
def map {α β : Type} (f : α → β) (o : Observable α) : Observable β :=
  ⟨mapTrace f (guardTrace o.raw), o.log⟩

/-- The `filter` operator: forwards only the values satisfying `p`. -/
def filter {α : Type} (p : α → Bool) (o : Observable α) : Observable α :=
  ⟨filterTrace p (guardTrace o.raw), o.log⟩

/-- The `catchError` operator: on upstream error `e`, subscribes to the
fallback Observable `h e` and forwards its notifications as a substitute
tail. -/
def catchError {α : Type} (h : String → Observable α) (o : Observable α) : Observable α :=
  ⟨catchErrorTrace (fun e => guardTrace (h e).raw) (guardTrace o.raw), o.log⟩

/-- The component's operator demo:
`of(1,2,3,4,5).pipe(filter(n => n % 2 === 0), map(n => n * 2))`. -/
def numbersPiped : Observable Nat :=
  map (fun n => n * 2) (filter (fun n => n % 2 == 0) (of [1, 2, 3, 4, 5]))

/-- The component's erroring source: pushes `'Before Error'` and then
errors with `'Something went wrong!'`. -/
def observableWithError : Observable String :=
  ⟨[Notification.next "Before Error", Notification.error "Something went wrong!"], []⟩

/-- The component's `catchError` demo: the handler returns
`of('Fallback value')`. -/
def caughtObservable : Observable String :=
  catchError (fun _ => of ["Fallback value"]) observableWithError

theorem values_filterTrace {α : Type} (p : α → Bool) (t : List (Notification α)) :
    values (filterTrace p t) = (values t).filter p := by
  induction t with
  | nil => rfl
  | cons n rest ih =>
    cases n with
    | next v =>
      by_cases hp : p v
      · simp [filterTrace, values, hp, List.filter, ih]
      · simp [filterTrace, values, hp, List.filter, ih]
    | error e => simpa [filterTrace, values] using ih
    | complete => simpa [filterTrace, values] using ih

theorem values_mapTrace {α β : Type} (f : α → β) (t : List (Notification α)) :
    values (mapTrace f t) = (values t).map f := by
  induction t with
  | nil => rfl
  | cons n rest ih =>
    cases n with
    | next v => simp [mapTrace, values, ih]
    | error e => simpa [mapTrace, values] using ih
    | complete => simpa [mapTrace, values] using ih

theorem catchErrorTrace_spliced {α : Type} (h : String → List (Notification α))
    (vs : List α) (e : String) :
    catchErrorTrace h (vs.map Notification.next ++ [Notification.error e])
      = vs.map Notification.next ++ h e := by
  induction vs with
  | nil => rfl
  | cons v rest ih => simp [catchErrorTrace, ih]

/-- C2: subscribing to `of(1,2,3,4,5).pipe(filter(n => n % 2 === 0),
map(n => n * 2))` delivers exactly the values 4 and 8, in that order,
followed by a single completion; in general `filter p` forwards exactly
the values satisfying `p` and `map f` forwards `f v` for each forwarded
value `v`. -/
theorem filter_map_pipeline_yields_4_8 :
    numbersPiped.subscribeTrace
        = [Notification.next 4, Notification.next 8, Notification.complete]
      ∧ (∀ (α : Type) (p : α → Bool) (t : List (Notification α)),
          values (filterTrace p t) = (values t).filter p)
      ∧ (∀ (α β : Type) (f : α → β) (t : List (Notification α)),
          values (mapTrace f t) = (values t).map f) :=
  ⟨by decide, fun _ p t => values_filterTrace p t, fun _ _ f t => values_mapTrace f t⟩

/-- C3: composing the source that emits `'Before Error'` and then errors
with `'Something went wrong!'` with `catchError` returning
`of('Fallback value')` delivers `'Before Error'`, then `'Fallback value'`,
then completion, and the downstream observer's error handler is never
invoked (the delivered trace contains no error notification); in general
`catchError` forwards upstream values and, at the upstream error, splices
in the handler's notifications as a substitute tail. -/
theorem catchError_substitutes_fallback :
    caughtObservable.subscribeTrace
        = [Notification.next "Before Error", Notification.next "Fallback value",
           Notification.complete]
      ∧ errorsOf caughtObservable.subscribeTrace = []
      ∧ (∀ (α : Type) (h : String → List (Notification α)) (vs : List α) (e : String),
          catchErrorTrace h (vs.map Notification.next ++ [Notification.error e])
            = vs.map Notification.next ++ h e) :=
  ⟨by decide, by decide, fun _ h vs e => catchErrorTrace_spliced h vs e⟩

/-- An event seen by a two-source `combineLatest`: a value, completion, or
error from the left or from the right source. -/
inductive SrcEvent (α β : Type) where
  | lval (v : α)
  | rval (v : β)
  | ldone
  | rdone
  | lerr (e : String)
  | rerr (e : String)
  deriving DecidableEq, Repr

/-- Modelled from the spec: `combineLatest` keeps the latest value of each
source (`la`, `lb`) and completion flags (`ld`, `rd`); whenever a source
emits it updates that slot and, once every source has emitted at least
once, emits the tuple of latest values; it completes when all sources have
completed and errors as soon as any source errors. -/
def clRun {α β : Type} (la : Option α) (lb : Option β) (ld rd : Bool) :
    List (SrcEvent α β) → List (Notification (α × β))
  | [] => []
  | SrcEvent.lval v :: rest =>
      match lb with
      | some b => Notification.next (v, b) :: clRun (some v) (some b) ld rd rest
      | none => clRun (some v) none ld rd rest
  | SrcEvent.rval v :: rest =>
      match la with
      | some a => Notification.next (a, v) :: clRun (some a) (some v) ld rd rest
      | none => clRun none (some v) ld rd rest
  | SrcEvent.ldone :: rest => if rd then [Notification.complete] else clRun la lb true rd rest
  | SrcEvent.rdone :: rest => if ld then [Notification.complete] else clRun la lb ld true rest
  | SrcEvent.lerr e :: _ => [Notification.error e]
  | SrcEvent.rerr e :: _ => [Notification.error e]

/-- The events contributed by the left source's notification trace. -/
def eventsLeft {α β : Type} : List (Notification α) → List (SrcEvent α β)
  | [] => []
  | Notification.next v :: rest => SrcEvent.lval v :: eventsLeft rest
  | Notification.error e :: _ => [SrcEvent.lerr e]
  | Notification.complete :: _ => [SrcEvent.ldone]

/-- The events contributed by the right source's notification trace. -/
def eventsRight {α β : Type} : List (Notification β) → List (SrcEvent α β)
  | [] => []
  | Notification.next v :: rest => SrcEvent.rval v :: eventsRight rest
  | Notification.error e :: _ => [SrcEvent.rerr e]
  | Notification.complete :: _ => [SrcEvent.rdone]

/-- Combinator `combineLatest([o1, o2])` for synchronous sources: subscribing runs the
first source's producer to the end, then the second's, so the event
schedule is the first trace's events followed by the second's. -/
def combineLatest {α β : Type} (o1 : Observable α) (o2 : Observable β) :
    Observable (α × β) :=
  ⟨clRun none none false false
      (eventsLeft (guardTrace o1.raw) ++ eventsRight (guardTrace o2.raw)),
    o1.log ++ o2.log⟩

/-- The component's first combined source, `of(1, 2, 3)`. -/
def obs1 : Observable Nat := of [1, 2, 3]

/-- The component's second combined source, `of('A', 'B', 'C')`. -/
def obs2 : Observable String := of ["A", "B", "C"]

/-- Does the event list contain a left-source value? -/
def hasLval {α β : Type} : List (SrcEvent α β) → Bool
  | [] => false
  | SrcEvent.lval _ :: _ => true
  | _ :: rest => hasLval rest

/-- Does the event list contain a right-source value? -/
def hasRval {α β : Type} : List (SrcEvent α β) → Bool
  | [] => false
  | SrcEvent.rval _ :: _ => true
  | _ :: rest => hasRval rest

/-- Does the notification trace contain a `next`? -/
def hasNext {α : Type} : List (Notification α) → Bool
  | [] => false
  | Notification.next _ :: _ => true
  | _ :: rest => hasNext rest

theorem clRun_no_next_of_no_lval {α β : Type} (evs : List (SrcEvent α β)) :
    ∀ (lb : Option β) (ld rd : Bool), hasLval evs = false →
      hasNext (clRun none lb ld rd evs) = false := by
  induction evs with
  | nil => intro lb ld rd _; rfl
  | cons ev rest ih =>
    intro lb ld rd hno
    cases ev with
    | lval v => simp [hasLval] at hno
    | rval v => simpa [clRun, hasLval] using ih (some v) ld rd (by simpa [hasLval] using hno)
    | ldone =>
      by_cases hrd : rd
      · simp [clRun, hrd, hasNext]
      · simpa [clRun, hrd] using ih lb true rd (by simpa [hasLval] using hno)
    | rdone =>
      by_cases hld : ld
      · simp [clRun, hld, hasNext]
      · simpa [clRun, hld] using ih lb ld true (by simpa [hasLval] using hno)
    | lerr e => simp [clRun, hasNext]
    | rerr e => simp [clRun, hasNext]

theorem clRun_no_next_of_no_rval {α β : Type} (evs : List (SrcEvent α β)) :
    ∀ (la : Option α) (ld rd : Bool), hasRval evs = false →
      hasNext (clRun la none ld rd evs) = false := by
  induction evs with
  | nil => intro la ld rd _; rfl
  | cons ev rest ih =>
    intro la ld rd hno
    cases ev with
    | rval v => simp [hasRval] at hno
    | lval v => simpa [clRun, hasRval] using ih (some v) ld rd (by simpa [hasRval] using hno)
    | ldone =>
      by_cases hrd : rd
      · simp [clRun, hrd, hasNext]
      · simpa [clRun, hrd] using ih la true rd (by simpa [hasRval] using hno)
    | rdone =>
      by_cases hld : ld
      · simp [clRun, hld, hasNext]
      · simpa [clRun, hld] using ih la ld true (by simpa [hasRval] using hno)
    | lerr e => simp [clRun, hasNext]
    | rerr e => simp [clRun, hasNext]

/-- C1 counterexample: `combineLatest([of(1,2,3), of('A','B','C')])` does
not deliver exactly one tuple `(3, 'C')` and completion: the first source
runs to completion before the second subscribes, so once `'A'`, `'B'`,
`'C'` arrive the latest left value is already 3 and a tuple is emitted for
each of them. -/
theorem combineLatest_not_single_tuple :
    ¬ ((combineLatest obs1 obs2).subscribeTrace
        = [Notification.next (3, "C"), Notification.complete]) := by
  decide

/-- C1 (amended): `combineLatest([of(1,2,3), of('A','B','C')])` emits the
three tuples `(3,'A')`, `(3,'B')`, `(3,'C')` — one per emission after
every source has emitted — and then completes; in general no tuple is
emitted before every source has emitted at least once (a schedule with no
left value, or no right value, produces no `next`). -/
theorem combineLatest_latest_pairs :
    (combineLatest obs1 obs2).subscribeTrace
        = [Notification.next (3, "A"), Notification.next (3, "B"),
           Notification.next (3, "C"), Notification.complete]
      ∧ (∀ (α β : Type) (evs : List (SrcEvent α β)) (lb : Option β) (ld rd : Bool),
          hasLval evs = false → hasNext (clRun none lb ld rd evs) = false)
      ∧ (∀ (α β : Type) (evs : List (SrcEvent α β)) (la : Option α) (ld rd : Bool),
          hasRval evs = false → hasNext (clRun la none ld rd evs) = false) :=
  ⟨by decide,
    fun _ _ evs lb ld rd hno => clRun_no_next_of_no_lval evs lb ld rd hno,
    fun _ _ evs la ld rd hno => clRun_no_next_of_no_rval evs la ld rd hno⟩

/-- C1 witness: the amended theorem applied at a concrete schedule with no
left value. -/
theorem combineLatest_latest_pairs_witness :
    hasLval ([SrcEvent.rval "A", SrcEvent.rdone] : List (SrcEvent Nat String)) = false
      ∧ hasNext (clRun (none : Option Nat) (none : Option String) false false
          [SrcEvent.rval "A", SrcEvent.rdone]) = false :=
  ⟨by decide,
    combineLatest_latest_pairs.2.1 Nat String [SrcEvent.rval "A", SrcEvent.rdone]
      none false false (by decide)⟩

/-- A Subject's lifecycle status: active, or terminated by an error or by
completion.  Terminal statuses are final. -/
inductive SStatus where
  | active
  | errored (e : String)
  | completed
  deriving DecidableEq, Repr

/-- Modelled from the spec: a plain `Subject`.  `subs` holds each currently
subscribed observer (its id and the notifications it has received so far),
in subscription order — ids are assigned from the counter `nextId`, so list
order is subscription order; `done` holds observers whose subscription has
received its terminal notification; `log` is the chronological multicast
delivery log. -/
structure PSubject (α : Type) where
  status : SStatus
  subs : List (Nat × List (Notification α))
  done : List (Nat × List (Notification α))
  nextId : Nat
  log : List (Nat × Notification α)
  deriving Repr

/-- A fresh plain Subject: active, no subscribers, nothing delivered. -/
def PSubject.init {α : Type} : PSubject α :=
  ⟨SStatus.active, [], [], 0, []⟩

/-- Operation `subscribe` on a plain Subject: while active, registers a new observer
that has received nothing (no replay); after termination, the new observer
immediately receives the terminal notification and nothing else. -/
def PSubject.subscribe {α : Type} (s : PSubject α) : PSubject α :=
  match s.status with
  | SStatus.active =>
      { s with subs := s.subs ++ [(s.nextId, [])], nextId := s.nextId + 1 }
  | SStatus.errored e =>
      { s with
        done := s.done ++ [(s.nextId, [Notification.error e])]
        nextId := s.nextId + 1
        log := s.log ++ [(s.nextId, Notification.error e)] }
  | SStatus.completed =>
      { s with
        done := s.done ++ [(s.nextId, [Notification.complete])]
        nextId := s.nextId + 1
        log := s.log ++ [(s.nextId, Notification.complete)] }

/-- Operation `next v` on a plain Subject: while active, delivers `v` to every
currently subscribed observer in subscription order; ignored otherwise. -/
def PSubject.next {α : Type} (s : PSubject α) (v : α) : PSubject α :=
  match s.status with
  | SStatus.active =>
      { s with
        subs := s.subs.map (fun p => (p.1, p.2 ++ [Notification.next v]))
        log := s.log ++ s.subs.map (fun p => (p.1, Notification.next v)) }
  | _ => s

/-- Operation `error e` on a plain Subject: while active, delivers the error to every
current observer and moves to the `errored` terminal state; ignored once
terminated. -/
def PSubject.error {α : Type} (s : PSubject α) (e : String) : PSubject α :=
  match s.status with
  | SStatus.active =>
      { s with
        status := SStatus.errored e
        subs := []
        done := s.done ++ s.subs.map (fun p => (p.1, p.2 ++ [Notification.error e]))
        log := s.log ++ s.subs.map (fun p => (p.1, Notification.error e)) }
  | _ => s

/-- Operation `complete` on a plain Subject: while active, delivers completion to
every current observer and moves to the `completed` terminal state;
ignored once terminated. -/
def PSubject.complete {α : Type} (s : PSubject α) : PSubject α :=
  match s.status with
  | SStatus.active =>
      { s with
        status := SStatus.completed
        subs := []
        done := s.done ++ s.subs.map (fun p => (p.1, p.2 ++ [Notification.complete]))
        log := s.log ++ s.subs.map (fun p => (p.1, Notification.complete)) }
  | _ => s

/-- The trace recorded for observer `i` in an id/trace list (empty when
the id is absent). -/
def tracesFind {α : Type} (i : Nat) (entries : List (Nat × List (Notification α))) :
    List (Notification α) :=
  match entries.find? (fun p => p.1 == i) with
  | some p => p.2
  | none => []

/-- The notifications observer `i` of a plain Subject has received. -/
def PSubject.received {α : Type} (s : PSubject α) (i : Nat) : List (Notification α) :=
  tracesFind i (s.subs ++ s.done)

/-- Modelled from the spec: a `BehaviorSubject` — a plain Subject that also
holds the last emitted value (`current`, seeded at construction) and hands
it synchronously to each new subscriber while active. -/
structure BSubject (α : Type) where
  current : α
  status : SStatus
  subs : List (Nat × List (Notification α))
  done : List (Nat × List (Notification α))
  nextId : Nat
  log : List (Nat × Notification α)
  deriving Repr

/-- A fresh BehaviorSubject holding its seed value. -/
def BSubject.init {α : Type} (seed : α) : BSubject α :=
  ⟨seed, SStatus.active, [], [], 0, []⟩

/-- Operation `subscribe` on a BehaviorSubject: while active, the new observer
synchronously receives the current value; after termination it receives
only the terminal notification. -/
def BSubject.subscribe {α : Type} (s : BSubject α) : BSubject α :=
  match s.status with
  | SStatus.active =>
      { s with
        subs := s.subs ++ [(s.nextId, [Notification.next s.current])]
        nextId := s.nextId + 1
        log := s.log ++ [(s.nextId, Notification.next s.current)] }
  | SStatus.errored e =>
      { s with
        done := s.done ++ [(s.nextId, [Notification.error e])]
        nextId := s.nextId + 1
        log := s.log ++ [(s.nextId, Notification.error e)] }
  | SStatus.completed =>
      { s with
        done := s.done ++ [(s.nextId, [Notification.complete])]
        nextId := s.nextId + 1
        log := s.log ++ [(s.nextId, Notification.complete)] }

/-- Operation `next v` on a BehaviorSubject: while active, stores `v` as the current
value and delivers it to every current observer in subscription order;
ignored otherwise. -/
def BSubject.next {α : Type} (s : BSubject α) (v : α) : BSubject α :=
  match s.status with
  | SStatus.active =>
      { s with
        current := v
        subs := s.subs.map (fun p => (p.1, p.2 ++ [Notification.next v]))
        log := s.log ++ s.subs.map (fun p => (p.1, Notification.next v)) }
  | _ => s

/-- Operation `error e` on a BehaviorSubject: as for the plain Subject. -/
def BSubject.error {α : Type} (s : BSubject α) (e : String) : BSubject α :=
  match s.status with
  | SStatus.active =>
      { s with
        status := SStatus.errored e
        subs := []
        done := s.done ++ s.subs.map (fun p => (p.1, p.2 ++ [Notification.error e]))
        log := s.log ++ s.subs.map (fun p => (p.1, Notification.error e)) }
  | _ => s

/-- Operation `complete` on a BehaviorSubject: as for the plain Subject. -/
def BSubject.complete {α : Type} (s : BSubject α) : BSubject α :=
  match s.status with
  | SStatus.active =>
      { s with
        status := SStatus.completed
        subs := []
        done := s.done ++ s.subs.map (fun p => (p.1, p.2 ++ [Notification.complete]))
        log := s.log ++ s.subs.map (fun p => (p.1, Notification.complete)) }
  | _ => s

/-- The notifications observer `i` of a BehaviorSubject has received. -/
def BSubject.received {α : Type} (s : BSubject α) (i : Nat) : List (Notification α) :=
  tracesFind i (s.subs ++ s.done)

/-- An operation applied to a Subject from outside. -/
inductive SubjectOp (α : Type) where
  | subscribe
  | next (v : α)
  | error (e : String)
  | complete
  deriving DecidableEq, Repr

/-- Apply one operation to a plain Subject. -/
def PSubject.apply {α : Type} (s : PSubject α) : SubjectOp α → PSubject α
  | SubjectOp.subscribe => s.subscribe
  | SubjectOp.next v => s.next v
  | SubjectOp.error e => s.error e
  | SubjectOp.complete => s.complete

/-- Run a script of operations on a fresh plain Subject. -/
def PSubject.run {α : Type} (ops : List (SubjectOp α)) : PSubject α :=
  ops.foldl PSubject.apply PSubject.init

/-- Apply one operation to a BehaviorSubject. -/
def BSubject.apply {α : Type} (s : BSubject α) : SubjectOp α → BSubject α
  | SubjectOp.subscribe => s.subscribe
  | SubjectOp.next v => s.next v
  | SubjectOp.error e => s.error e
  | SubjectOp.complete => s.complete

/-- Run a script of operations on a fresh BehaviorSubject seeded with
`seed`. -/
def BSubject.run {α : Type} (seed : α) (ops : List (SubjectOp α)) : BSubject α :=
  ops.foldl BSubject.apply (BSubject.init seed)

/-- The component's BehaviorSubject, seeded with `'Initial Value'`, after
the first `subscribe` call (the first subscriber gets id 0). -/
def behaviorDemo1 : BSubject String :=
  (BSubject.init "Initial Value").subscribe

/-- The same subject after `next('Updated Value')` and the second `subscribe` call (the
second subscriber gets id 1). -/
def behaviorDemo3 : BSubject String :=
  (behaviorDemo1.next "Updated Value").subscribe

/-- The component's plain Subject after `subscribe` (id 0),
`next('Hello')`, `subscribe` (id 1), `next('World')`. -/
def hotDemo : PSubject String :=
  (((PSubject.init.subscribe).next "Hello").subscribe).next "World"

theorem tracesFind_append_of_lt {α : Type} (i : Nat)
    (xs ys : List (Nat × List (Notification α))) (h : ∀ p ∈ xs, p.1 ≠ i) :
    tracesFind i (xs ++ ys) = tracesFind i ys := by
  induction xs with
  | nil => rfl
  | cons q rest ih =>
    have hq : (q.1 == i) = false := by
      simpa using h q (List.mem_cons_self q rest)
    have hrest : ∀ p ∈ rest, p.1 ≠ i := fun p hp => h p (List.mem_cons_of_mem q hp)
    have step : tracesFind i ((q :: rest) ++ ys) = tracesFind i (rest ++ ys) := by
      simp [tracesFind, List.find?, hq]
    rw [step]
    exact ih hrest

theorem tracesFind_cons_self {α : Type} (i : Nat) (tr : List (Notification α))
    (rest : List (Nat × List (Notification α))) :
    tracesFind i ((i, tr) :: rest) = tr := by
  simp [tracesFind, List.find?]

theorem PSubject.received_subscribe_fresh {α : Type} (s : PSubject α)
    (hact : s.status = SStatus.active)
    (hfresh : ∀ p ∈ s.subs ++ s.done, p.1 < s.nextId) :
    (s.subscribe).received s.nextId = [] := by
  have hsubs : ∀ p ∈ s.subs, p.1 ≠ s.nextId := fun p hp =>
    Nat.ne_of_lt (hfresh p (List.mem_append_left _ hp))
  simp only [PSubject.received, PSubject.subscribe, hact, List.append_assoc]
  rw [tracesFind_append_of_lt s.nextId s.subs _ hsubs]
  exact tracesFind_cons_self s.nextId [] s.done

theorem BSubject.received_subscribe_current {α : Type} (s : BSubject α)
    (hact : s.status = SStatus.active)
    (hfresh : ∀ p ∈ s.subs ++ s.done, p.1 < s.nextId) :
    (s.subscribe).received s.nextId = [Notification.next s.current] := by
  have hsubs : ∀ p ∈ s.subs, p.1 ≠ s.nextId := fun p hp =>
    Nat.ne_of_lt (hfresh p (List.mem_append_left _ hp))
  simp only [BSubject.received, BSubject.subscribe, hact, List.append_assoc]
  rw [tracesFind_append_of_lt s.nextId s.subs _ hsubs]
  exact tracesFind_cons_self s.nextId [Notification.next s.current] s.done

theorem BSubject.fresh_after_next {α : Type} (s : BSubject α) (v : α)
    (hact : s.status = SStatus.active)
    (hfresh : ∀ p ∈ s.subs ++ s.done, p.1 < s.nextId) :
    ((s.next v).subscribe).received s.nextId = [Notification.next v] := by
  have hs : (s.next v).status = SStatus.active := by simp [BSubject.next, hact]
  have hnid : (s.next v).nextId = s.nextId := by simp [BSubject.next, hact]
  have hcur : (s.next v).current = v := by simp [BSubject.next, hact]
  have hfresh' : ∀ p ∈ (s.next v).subs ++ (s.next v).done, p.1 < (s.next v).nextId := by
    intro p hp
    rcases List.mem_append.mp hp with hsub | hdon
    · simp only [BSubject.next, hact] at hsub hnid ⊢
      rcases List.mem_map.mp hsub with ⟨q, hq, rfl⟩
      exact hfresh q (List.mem_append_left _ hq)
    · simp only [BSubject.next, hact] at hdon hnid ⊢
      exact hfresh p (List.mem_append_right _ hdon)
  have := BSubject.received_subscribe_current (s.next v) hs hfresh'
  rw [hnid, hcur] at this
  exact this

/-- C4: the component's BehaviorSubject seeded with `'Initial Value'`:
the observer subscribed before any `next` call synchronously receives
`'Initial Value'` as its first value; after `next('Updated Value')`, the
newly attaching observer immediately receives `'Updated Value'` and never
receives `'Initial Value'`.  In general a subscriber to a fresh
BehaviorSubject receives the seed, and a fresh subscriber attached after
`next v` receives exactly `v`. -/
theorem behaviorSubject_replays_latest :
    behaviorDemo1.received 0 = [Notification.next "Initial Value"]
      ∧ behaviorDemo3.received 1 = [Notification.next "Updated Value"]
      ∧ Notification.next "Initial Value" ∉ behaviorDemo3.received 1
      ∧ (∀ (α : Type) (seed : α),
          ((BSubject.init seed).subscribe).received 0 = [Notification.next seed])
      ∧ (∀ (α : Type) (s : BSubject α) (v : α),
          s.status = SStatus.active →
          (∀ p ∈ s.subs ++ s.done, p.1 < s.nextId) →
          ((s.next v).subscribe).received s.nextId = [Notification.next v]) :=
  ⟨by decide, by decide, by decide,
    fun _ seed => BSubject.received_subscribe_current (BSubject.init seed) rfl
      (by intro p hp; simp [BSubject.init] at hp),
    fun _ s v hact hfresh => BSubject.fresh_after_next s v hact hfresh⟩

/-- C4 witness: the general clause applied to a concrete fresh
BehaviorSubject. -/
theorem behaviorSubject_replays_latest_witness :
    (BSubject.init "seed").status = SStatus.active
      ∧ (((BSubject.init "seed").next "v").subscribe).received 0
          = [Notification.next "v"] :=
  ⟨rfl,
    behaviorSubject_replays_latest.2.2.2.2 String (BSubject.init "seed") "v" rfl
      (by intro p hp; simp [BSubject.init] at hp)⟩

/-- C5: the component's plain Subject: the observer subscribed before
`next('Hello')` receives `'Hello'` (and the later `'World'`); the observer
subscribed after it receives only `'World'`, not `'Hello'`.  In general a
plain Subject performs no replay: a fresh subscriber has received nothing
at the moment its subscription is set up. -/
theorem plainSubject_no_replay :
    hotDemo.received 0 = [Notification.next "Hello", Notification.next "World"]
      ∧ hotDemo.received 1 = [Notification.next "World"]
      ∧ Notification.next "Hello" ∉ hotDemo.received 1
      ∧ (∀ (α : Type) (s : PSubject α),
          s.status = SStatus.active →
          (∀ p ∈ s.subs ++ s.done, p.1 < s.nextId) →
          (s.subscribe).received s.nextId = []) :=
  ⟨by decide, by decide, by decide,
    fun _ s hact hfresh => PSubject.received_subscribe_fresh s hact hfresh⟩

/-- C5 witness: the no-replay clause applied to a concrete plain Subject
that has already emitted. -/
theorem plainSubject_no_replay_witness :
    ((PSubject.init.next "Hello").subscribe).received
        (PSubject.init.next "Hello").nextId = ([] : List (Notification String)) :=
  plainSubject_no_replay.2.2.2 String (PSubject.init.next "Hello") rfl
    (by intro p hp; simp [PSubject.init, PSubject.next] at hp)

theorem PSubject.next_active {α : Type} (s : PSubject α) (v : α)
    (hact : s.status = SStatus.active) :
    (s.next v).subs = s.subs.map (fun p => (p.1, p.2 ++ [Notification.next v]))
      ∧ (s.next v).log = s.log ++ s.subs.map (fun p => (p.1, Notification.next v)) :=
  ⟨by simp [PSubject.next, hact], by simp [PSubject.next, hact]⟩

theorem PSubject.next_nonactive {α : Type} (s : PSubject α) (v : α)
    (h : s.status ≠ SStatus.active) : s.next v = s := by
  cases hst : s.status with
  | active => exact absurd hst h
  | errored e => simp [PSubject.next, hst]
  | completed => simp [PSubject.next, hst]

theorem PSubject.error_nonactive {α : Type} (s : PSubject α) (e : String)
    (h : s.status ≠ SStatus.active) : s.error e = s := by
  cases hst : s.status with
  | active => exact absurd hst h
  | errored e0 => simp [PSubject.error, hst]
  | completed => simp [PSubject.error, hst]

theorem PSubject.complete_nonactive {α : Type} (s : PSubject α)
    (h : s.status ≠ SStatus.active) : s.complete = s := by
  cases hst : s.status with
  | active => exact absurd hst h
  | errored e0 => simp [PSubject.complete, hst]
  | completed => simp [PSubject.complete, hst]

theorem PSubject.subscribe_status {α : Type} (s : PSubject α) :
    (s.subscribe).status = s.status := by
  cases hst : s.status <;> simp [PSubject.subscribe, hst]

theorem PSubject.subscribe_terminal_errored {α : Type} (s : PSubject α) (e : String)
    (hst : s.status = SStatus.errored e)
    (hfresh : ∀ p ∈ s.subs ++ s.done, p.1 < s.nextId) :
    (s.subscribe).received s.nextId = [Notification.error e] := by
  have hne : ∀ p ∈ s.subs ++ s.done, p.1 ≠ s.nextId := fun p hp =>
    Nat.ne_of_lt (hfresh p hp)
  simp only [PSubject.received, PSubject.subscribe, hst]
  rw [← List.append_assoc]
  rw [tracesFind_append_of_lt s.nextId (s.subs ++ s.done) _ hne]
  exact tracesFind_cons_self s.nextId [Notification.error e] []

theorem PSubject.subscribe_terminal_completed {α : Type} (s : PSubject α)
    (hst : s.status = SStatus.completed)
    (hfresh : ∀ p ∈ s.subs ++ s.done, p.1 < s.nextId) :
    (s.subscribe).received s.nextId = [Notification.complete] := by
  have hne : ∀ p ∈ s.subs ++ s.done, p.1 ≠ s.nextId := fun p hp =>
    Nat.ne_of_lt (hfresh p hp)
  simp only [PSubject.received, PSubject.subscribe, hst]
  rw [← List.append_assoc]
  rw [tracesFind_append_of_lt s.nextId (s.subs ++ s.done) _ hne]
  exact tracesFind_cons_self s.nextId [Notification.complete] []

theorem BSubject.next_terminal_noop {α : Type} (s : BSubject α) (v : α)
    (h : s.status ≠ SStatus.active) : s.next v = s := by
  cases hst : s.status with
  | active => exact absurd hst h
  | errored e => simp [BSubject.next, hst]
  | completed => simp [BSubject.next, hst]

theorem BSubject.error_terminal_noop {α : Type} (s : BSubject α) (e : String)
    (h : s.status ≠ SStatus.active) : s.error e = s := by
  cases hst : s.status with
  | active => exact absurd hst h
  | errored e0 => simp [BSubject.error, hst]
  | completed => simp [BSubject.error, hst]

theorem BSubject.complete_terminal_noop {α : Type} (s : BSubject α)
    (h : s.status ≠ SStatus.active) : s.complete = s := by
  cases hst : s.status with
  | active => exact absurd hst h
  | errored e0 => simp [BSubject.complete, hst]
  | completed => simp [BSubject.complete, hst]

theorem BSubject.next_multicast {α : Type} (s : BSubject α) (v : α)
    (hact : s.status = SStatus.active) :
    (s.next v).subs = s.subs.map (fun p => (p.1, p.2 ++ [Notification.next v]))
      ∧ (s.next v).log = s.log ++ s.subs.map (fun p => (p.1, Notification.next v)) :=
  ⟨by simp [BSubject.next, hact], by simp [BSubject.next, hact]⟩

theorem BSubject.subscribe_keeps_status {α : Type} (s : BSubject α) :
    (s.subscribe).status = s.status := by
  cases hst : s.status <;> simp [BSubject.subscribe, hst]

theorem BSubject.subscribe_after_error {α : Type} (s : BSubject α) (e : String)
    (hst : s.status = SStatus.errored e)
    (hfresh : ∀ p ∈ s.subs ++ s.done, p.1 < s.nextId) :
    (s.subscribe).received s.nextId = [Notification.error e] := by
  have hne : ∀ p ∈ s.subs ++ s.done, p.1 ≠ s.nextId := fun p hp =>
    Nat.ne_of_lt (hfresh p hp)
  simp only [BSubject.received, BSubject.subscribe, hst]
  rw [← List.append_assoc]
  rw [tracesFind_append_of_lt s.nextId (s.subs ++ s.done) _ hne]
  exact tracesFind_cons_self s.nextId [Notification.error e] []

theorem BSubject.subscribe_after_complete {α : Type} (s : BSubject α)
    (hst : s.status = SStatus.completed)
    (hfresh : ∀ p ∈ s.subs ++ s.done, p.1 < s.nextId) :
    (s.subscribe).received s.nextId = [Notification.complete] := by
  have hne : ∀ p ∈ s.subs ++ s.done, p.1 ≠ s.nextId := fun p hp =>
    Nat.ne_of_lt (hfresh p hp)
  simp only [BSubject.received, BSubject.subscribe, hst]
  rw [← List.append_assoc]
  rw [tracesFind_append_of_lt s.nextId (s.subs ++ s.done) _ hne]
  exact tracesFind_cons_self s.nextId [Notification.complete] []

/-- C9: every Subject of the core — the plain Subject and the
BehaviorSubject alike — follows the state machine Active → (Errored |
Completed) with terminal states final: `next v` in Active state delivers
`v` to every currently subscribed observer, in subscription order (the
subscriber list is kept in subscription order and the multicast appends
one delivery per subscriber in that order), and is a no-op otherwise;
`error`/`complete` move an Active subject to the corresponding terminal
status and are no-ops afterwards, so the terminal state is sticky and no
further emissions occur; a `subscribe` arriving after termination leaves
the terminal status in place and the new observer immediately receives
the terminal notification and nothing else.  Each clause is stated and
proven for both subject types. -/
theorem subject_state_machine :
    (∀ (α : Type) (s : PSubject α) (v : α),
        s.status = SStatus.active →
          (s.next v).subs = s.subs.map (fun p => (p.1, p.2 ++ [Notification.next v]))
            ∧ (s.next v).log = s.log ++ s.subs.map (fun p => (p.1, Notification.next v)))
      ∧ (∀ (α : Type) (s : PSubject α) (v : α),
          s.status ≠ SStatus.active → s.next v = s)
      ∧ (∀ (α : Type) (s : PSubject α) (e : String),
          s.status = SStatus.active → (s.error e).status = SStatus.errored e)
      ∧ (∀ (α : Type) (s : PSubject α),
          s.status = SStatus.active → (s.complete).status = SStatus.completed)
      ∧ (∀ (α : Type) (s : PSubject α) (v : α) (e : String),
          s.status ≠ SStatus.active →
            s.next v = s ∧ s.error e = s ∧ s.complete = s
              ∧ (s.subscribe).status = s.status)
      ∧ (∀ (α : Type) (s : PSubject α) (e : String),
          s.status = SStatus.errored e →
          (∀ p ∈ s.subs ++ s.done, p.1 < s.nextId) →
          (s.subscribe).received s.nextId = [Notification.error e])
      ∧ (∀ (α : Type) (s : PSubject α),
          s.status = SStatus.completed →
          (∀ p ∈ s.subs ++ s.done, p.1 < s.nextId) →
          (s.subscribe).received s.nextId = [Notification.complete])
      ∧ (∀ (α : Type) (s : BSubject α) (v : α) (e : String),
          s.status ≠ SStatus.active →
            s.next v = s ∧ s.error e = s ∧ s.complete = s)
      ∧ (∀ (α : Type) (s : BSubject α) (v : α),
          s.status = SStatus.active →
            (s.next v).subs = s.subs.map (fun p => (p.1, p.2 ++ [Notification.next v]))
              ∧ (s.next v).log = s.log ++ s.subs.map (fun p => (p.1, Notification.next v)))
      ∧ (∀ (α : Type) (s : BSubject α) (e : String),
          s.status = SStatus.active → (s.error e).status = SStatus.errored e)
      ∧ (∀ (α : Type) (s : BSubject α),
          s.status = SStatus.active → (s.complete).status = SStatus.completed)
      ∧ (∀ (α : Type) (s : BSubject α), (s.subscribe).status = s.status)
      ∧ (∀ (α : Type) (s : BSubject α) (e : String),
          s.status = SStatus.errored e →
          (∀ p ∈ s.subs ++ s.done, p.1 < s.nextId) →
          (s.subscribe).received s.nextId = [Notification.error e])
      ∧ (∀ (α : Type) (s : BSubject α),
          s.status = SStatus.completed →
          (∀ p ∈ s.subs ++ s.done, p.1 < s.nextId) →
          (s.subscribe).received s.nextId = [Notification.complete]) :=
  ⟨fun _ s v hact => PSubject.next_active s v hact,
    fun _ s v h => PSubject.next_nonactive s v h,
    fun _ s e hact => by simp [PSubject.error, hact],
    fun _ s hact => by simp [PSubject.complete, hact],
    fun _ s v e h =>
      ⟨PSubject.next_nonactive s v h, PSubject.error_nonactive s e h,
        PSubject.complete_nonactive s h, PSubject.subscribe_status s⟩,
    fun _ s e hst hfresh => PSubject.subscribe_terminal_errored s e hst hfresh,
    fun _ s hst hfresh => PSubject.subscribe_terminal_completed s hst hfresh,
    fun _ s v e h =>
      ⟨BSubject.next_terminal_noop s v h, BSubject.error_terminal_noop s e h,
        BSubject.complete_terminal_noop s h⟩,
    fun _ s v hact => BSubject.next_multicast s v hact,
    fun _ s e hact => by simp [BSubject.error, hact],
    fun _ s hact => by simp [BSubject.complete, hact],
    fun _ s => BSubject.subscribe_keeps_status s,
    fun _ s e hst hfresh => BSubject.subscribe_after_error s e hst hfresh,
    fun _ s hst hfresh => BSubject.subscribe_after_complete s hst hfresh⟩

/-- C9 witness: the state-machine facts at concrete subjects — a plain
Subject that has one subscriber and has then errored, an active
BehaviorSubject with one subscriber, and an errored BehaviorSubject. -/
theorem subject_state_machine_witness :
    (((((PSubject.init : PSubject String).subscribe).error "boom").subscribe).received 1
        = [Notification.error "boom"])
      ∧ (((PSubject.init : PSubject String).subscribe).error "boom").next "x"
          = ((PSubject.init : PSubject String).subscribe).error "boom"
      ∧ ((((BSubject.init "seed").subscribe).next "v").subs
            = ((BSubject.init "seed").subscribe).subs.map
                (fun p => (p.1, p.2 ++ [Notification.next "v"]))
          ∧ (((BSubject.init "seed").subscribe).next "v").log
              = ((BSubject.init "seed").subscribe).log
                  ++ ((BSubject.init "seed").subscribe).subs.map
                      (fun p => (p.1, Notification.next "v")))
      ∧ ((((BSubject.init "seed").error "boom").subscribe).received 0
          = [Notification.error "boom"]) :=
  ⟨subject_state_machine.2.2.2.2.2.1 String
      (((PSubject.init : PSubject String).subscribe).error "boom") "boom" rfl (by decide),
    (subject_state_machine.2.2.2.2.1 String
      (((PSubject.init : PSubject String).subscribe).error "boom")
      "x" "ignored" (by decide)).1,
    subject_state_machine.2.2.2.2.2.2.2.2.1 String
      ((BSubject.init "seed").subscribe) "v" rfl,
    subject_state_machine.2.2.2.2.2.2.2.2.2.2.2.2.1 String
      ((BSubject.init "seed").error "boom") "boom" rfl (by decide)⟩

/-- Is the trace free of terminal notifications? -/
def noTermB {α : Type} : List (Notification α) → Bool
  | [] => true
  | Notification.next _ :: rest => noTermB rest
  | Notification.error _ :: _ => false
  | Notification.complete :: _ => false

/-- Is the trace well formed: at most one terminal notification, and no
notification after it? -/
def wfB {α : Type} : List (Notification α) → Bool
  | [] => true
  | Notification.next _ :: rest => wfB rest
  | Notification.error _ :: rest => rest.isEmpty
  | Notification.complete :: rest => rest.isEmpty

theorem wfB_of_noTermB {α : Type} (t : List (Notification α)) (h : noTermB t = true) :
    wfB t = true := by
  induction t with
  | nil => rfl
  | cons n rest ih =>
    cases n with
    | next v => exact ih (by simpa [noTermB] using h)
    | error e => simp [noTermB] at h
    | complete => simp [noTermB] at h

theorem noTermB_append_next {α : Type} (t : List (Notification α)) (v : α)
    (h : noTermB t = true) : noTermB (t ++ [Notification.next v]) = true := by
  induction t with
  | nil => rfl
  | cons n rest ih =>
    cases n with
    | next w => simpa [noTermB] using ih (by simpa [noTermB] using h)
    | error e => simp [noTermB] at h
    | complete => simp [noTermB] at h

theorem wfB_append_error {α : Type} (t : List (Notification α)) (e : String)
    (h : noTermB t = true) : wfB (t ++ [Notification.error e]) = true := by
  induction t with
  | nil => rfl
  | cons n rest ih =>
    cases n with
    | next w => simpa [wfB] using ih (by simpa [noTermB] using h)
    | error e0 => simp [noTermB] at h
    | complete => simp [noTermB] at h

theorem wfB_append_complete {α : Type} (t : List (Notification α))
    (h : noTermB t = true) : wfB (t ++ [Notification.complete]) = true := by
  induction t with
  | nil => rfl
  | cons n rest ih =>
    cases n with
    | next w => simpa [wfB] using ih (by simpa [noTermB] using h)
    | error e0 => simp [noTermB] at h
    | complete => simp [noTermB] at h

theorem wfB_guardTrace {α : Type} (t : List (Notification α)) :
    wfB (guardTrace t) = true := by
  induction t with
  | nil => rfl
  | cons n rest ih =>
    cases n with
    | next v => simpa [guardTrace, wfB] using ih
    | error e => simp [guardTrace, wfB, List.isEmpty]
    | complete => simp [guardTrace, wfB, List.isEmpty]

/-- The delivery invariant of a plain Subject: active subscriptions have
received no terminal notification, finished subscriptions hold a
well-formed trace. -/
def PInv {α : Type} (s : PSubject α) : Prop :=
  (∀ p ∈ s.subs, noTermB p.2 = true) ∧ (∀ p ∈ s.done, wfB p.2 = true)

theorem PInv_init {α : Type} : PInv (PSubject.init : PSubject α) := by
  constructor <;> intro p hp <;> simp [PSubject.init] at hp

theorem PInv_apply {α : Type} (s : PSubject α) (op : SubjectOp α) (hinv : PInv s) :
    PInv (s.apply op) := by
  obtain ⟨hsubs, hdone⟩ := hinv
  cases op with
  | subscribe =>
    cases hst : s.status with
    | active =>
      constructor
      · intro p hp
        simp only [PSubject.apply, PSubject.subscribe, hst] at hp
        rcases List.mem_append.mp hp with hold | hnew
        · exact hsubs p hold
        · simp at hnew; subst hnew; rfl
      · intro p hp
        simp only [PSubject.apply, PSubject.subscribe, hst] at hp
        exact hdone p hp
    | errored e =>
      constructor
      · intro p hp
        simp only [PSubject.apply, PSubject.subscribe, hst] at hp
        exact hsubs p hp
      · intro p hp
        simp only [PSubject.apply, PSubject.subscribe, hst] at hp
        rcases List.mem_append.mp hp with hold | hnew
        · exact hdone p hold
        · simp at hnew; subst hnew; rfl
    | completed =>
      constructor
      · intro p hp
        simp only [PSubject.apply, PSubject.subscribe, hst] at hp
        exact hsubs p hp
      · intro p hp
        simp only [PSubject.apply, PSubject.subscribe, hst] at hp
        rcases List.mem_append.mp hp with hold | hnew
        · exact hdone p hold
        · simp at hnew; subst hnew; rfl
  | next v =>
    cases hst : s.status with
    | active =>
      constructor
      · intro p hp
        simp only [PSubject.apply, PSubject.next, hst] at hp
        rcases List.mem_map.mp hp with ⟨q, hq, rfl⟩
        exact noTermB_append_next q.2 v (hsubs q hq)
      · intro p hp
        simp only [PSubject.apply, PSubject.next, hst] at hp
        exact hdone p hp
    | errored e =>
      constructor
      · intro p hp; simp only [PSubject.apply, PSubject.next, hst] at hp; exact hsubs p hp
      · intro p hp; simp only [PSubject.apply, PSubject.next, hst] at hp; exact hdone p hp
    | completed =>
      constructor
      · intro p hp; simp only [PSubject.apply, PSubject.next, hst] at hp; exact hsubs p hp
      · intro p hp; simp only [PSubject.apply, PSubject.next, hst] at hp; exact hdone p hp
  | error e =>
    cases hst : s.status with
    | active =>
      constructor
      · intro p hp
        simp only [PSubject.apply, PSubject.error, hst] at hp
        simp at hp
      · intro p hp
        simp only [PSubject.apply, PSubject.error, hst] at hp
        rcases List.mem_append.mp hp with hold | hnew
        · exact hdone p hold
        · rcases List.mem_map.mp hnew with ⟨q, hq, rfl⟩
          exact wfB_append_error q.2 e (hsubs q hq)
    | errored e0 =>
      constructor
      · intro p hp; simp only [PSubject.apply, PSubject.error, hst] at hp; exact hsubs p hp
      · intro p hp; simp only [PSubject.apply, PSubject.error, hst] at hp; exact hdone p hp
    | completed =>
      constructor
      · intro p hp; simp only [PSubject.apply, PSubject.error, hst] at hp; exact hsubs p hp
      · intro p hp; simp only [PSubject.apply, PSubject.error, hst] at hp; exact hdone p hp
  | complete =>
    cases hst : s.status with
    | active =>
      constructor
      · intro p hp
        simp only [PSubject.apply, PSubject.complete, hst] at hp
        simp at hp
      · intro p hp
        simp only [PSubject.apply, PSubject.complete, hst] at hp
        rcases List.mem_append.mp hp with hold | hnew
        · exact hdone p hold
        · rcases List.mem_map.mp hnew with ⟨q, hq, rfl⟩
          exact wfB_append_complete q.2 (hsubs q hq)
    | errored e0 =>
      constructor
      · intro p hp; simp only [PSubject.apply, PSubject.complete, hst] at hp; exact hsubs p hp
      · intro p hp; simp only [PSubject.apply, PSubject.complete, hst] at hp; exact hdone p hp
    | completed =>
      constructor
      · intro p hp; simp only [PSubject.apply, PSubject.complete, hst] at hp; exact hsubs p hp
      · intro p hp; simp only [PSubject.apply, PSubject.complete, hst] at hp; exact hdone p hp

/-- The delivery invariant of a BehaviorSubject, as for the plain
Subject. -/
def BInv {α : Type} (s : BSubject α) : Prop :=
  (∀ p ∈ s.subs, noTermB p.2 = true) ∧ (∀ p ∈ s.done, wfB p.2 = true)

theorem BInv_init {α : Type} (seed : α) : BInv (BSubject.init seed) := by
  constructor <;> intro p hp <;> simp [BSubject.init] at hp

theorem BInv_apply {α : Type} (s : BSubject α) (op : SubjectOp α) (hinv : BInv s) :
    BInv (s.apply op) := by
  obtain ⟨hsubs, hdone⟩ := hinv
  cases op with
  | subscribe =>
    cases hst : s.status with
    | active =>
      constructor
      · intro p hp
        simp only [BSubject.apply, BSubject.subscribe, hst] at hp
        rcases List.mem_append.mp hp with hold | hnew
        · exact hsubs p hold
        · simp at hnew; subst hnew; rfl
      · intro p hp
        simp only [BSubject.apply, BSubject.subscribe, hst] at hp
        exact hdone p hp
    | errored e =>
      constructor
      · intro p hp
        simp only [BSubject.apply, BSubject.subscribe, hst] at hp
        exact hsubs p hp
      · intro p hp
        simp only [BSubject.apply, BSubject.subscribe, hst] at hp
        rcases List.mem_append.mp hp with hold | hnew
        · exact hdone p hold
        · simp at hnew; subst hnew; rfl
    | completed =>
      constructor
      · intro p hp
        simp only [BSubject.apply, BSubject.subscribe, hst] at hp
        exact hsubs p hp
      · intro p hp
        simp only [BSubject.apply, BSubject.subscribe, hst] at hp
        rcases List.mem_append.mp hp with hold | hnew
        · exact hdone p hold
        · simp at hnew; subst hnew; rfl
  | next v =>
    cases hst : s.status with
    | active =>
      constructor
      · intro p hp
        simp only [BSubject.apply, BSubject.next, hst] at hp
        rcases List.mem_map.mp hp with ⟨q, hq, rfl⟩
        exact noTermB_append_next q.2 v (hsubs q hq)
      · intro p hp
        simp only [BSubject.apply, BSubject.next, hst] at hp
        exact hdone p hp
    | errored e =>
      constructor
      · intro p hp; simp only [BSubject.apply, BSubject.next, hst] at hp; exact hsubs p hp
      · intro p hp; simp only [BSubject.apply, BSubject.next, hst] at hp; exact hdone p hp
    | completed =>
      constructor
      · intro p hp; simp only [BSubject.apply, BSubject.next, hst] at hp; exact hsubs p hp
      · intro p hp; simp only [BSubject.apply, BSubject.next, hst] at hp; exact hdone p hp
  | error e =>
    cases hst : s.status with
    | active =>
      constructor
      · intro p hp
        simp only [BSubject.apply, BSubject.error, hst] at hp
        simp at hp
      · intro p hp
        simp only [BSubject.apply, BSubject.error, hst] at hp
        rcases List.mem_append.mp hp with hold | hnew
        · exact hdone p hold
        · rcases List.mem_map.mp hnew with ⟨q, hq, rfl⟩
          exact wfB_append_error q.2 e (hsubs q hq)
    | errored e0 =>
      constructor
      · intro p hp; simp only [BSubject.apply, BSubject.error, hst] at hp; exact hsubs p hp
      · intro p hp; simp only [BSubject.apply, BSubject.error, hst] at hp; exact hdone p hp
    | completed =>
      constructor
      · intro p hp; simp only [BSubject.apply, BSubject.error, hst] at hp; exact hsubs p hp
      · intro p hp; simp only [BSubject.apply, BSubject.error, hst] at hp; exact hdone p hp
  | complete =>
    cases hst : s.status with
    | active =>
      constructor
      · intro p hp
        simp only [BSubject.apply, BSubject.complete, hst] at hp
        simp at hp
      · intro p hp
        simp only [BSubject.apply, BSubject.complete, hst] at hp
        rcases List.mem_append.mp hp with hold | hnew
        · exact hdone p hold
        · rcases List.mem_map.mp hnew with ⟨q, hq, rfl⟩
          exact wfB_append_complete q.2 (hsubs q hq)
    | errored e0 =>
      constructor
      · intro p hp; simp only [BSubject.apply, BSubject.complete, hst] at hp; exact hsubs p hp
      · intro p hp; simp only [BSubject.apply, BSubject.complete, hst] at hp; exact hdone p hp
    | completed =>
      constructor
      · intro p hp; simp only [BSubject.apply, BSubject.complete, hst] at hp; exact hsubs p hp
      · intro p hp; simp only [BSubject.apply, BSubject.complete, hst] at hp; exact hdone p hp

theorem PInv_foldl {α : Type} (ops : List (SubjectOp α)) :
    ∀ (s : PSubject α), PInv s → PInv (ops.foldl PSubject.apply s) := by
  induction ops with
  | nil => intro s h; exact h
  | cons op rest ih => intro s h; exact ih (s.apply op) (PInv_apply s op h)

theorem BInv_foldl {α : Type} (ops : List (SubjectOp α)) :
    ∀ (s : BSubject α), BInv s → BInv (ops.foldl BSubject.apply s) := by
  induction ops with
  | nil => intro s h; exact h
  | cons op rest ih => intro s h; exact ih (s.apply op) (BInv_apply s op h)

theorem tracesFind_wf {α : Type} (i : Nat) (entries : List (Nat × List (Notification α)))
    (h : ∀ p ∈ entries, wfB p.2 = true) : wfB (tracesFind i entries) = true := by
  cases hf : entries.find? (fun p => p.1 == i) with
  | none => simp [tracesFind, hf]; rfl
  | some p =>
    have : tracesFind i entries = p.2 := by simp [tracesFind, hf]
    rw [this]
    exact h p (List.mem_of_find?_eq_some hf)

/-- C8: the notification sequence delivered to any observer contains at
most one terminal notification (`complete` or `error`, never both) and
nothing after it: this holds for every Observable subscription (the
guarded delivery of an arbitrary producer trace) and for every observer
of a plain Subject or BehaviorSubject driven by an arbitrary script of
operations. -/
theorem delivery_well_formed :
    (∀ (α : Type) (t : List (Notification α)), wfB (guardTrace t) = true)
      ∧ (∀ (α : Type) (ops : List (SubjectOp α)) (i : Nat),
          wfB ((PSubject.run ops).received i) = true)
      ∧ (∀ (α : Type) (seed : α) (ops : List (SubjectOp α)) (i : Nat),
          wfB ((BSubject.run seed ops).received i) = true) :=
  ⟨fun _ t => wfB_guardTrace t,
    fun _ ops i => by
      have hinv := PInv_foldl ops PSubject.init PInv_init
      exact tracesFind_wf i _ (fun p hp => by
        rcases List.mem_append.mp hp with hs | hd
        · exact wfB_of_noTermB p.2 (hinv.1 p hs)
        · exact hinv.2 p hd),
    fun _ seed ops i => by
      have hinv := BInv_foldl ops (BSubject.init seed) (BInv_init seed)
      exact tracesFind_wf i _ (fun p hp => by
        rcases List.mem_append.mp hp with hs | hd
        · exact wfB_of_noTermB p.2 (hinv.1 p hs)
        · exact hinv.2 p hd)⟩

/-- The host console: the ambient sink for the producer's side effects. -/
structure Console where
  out : List String
  deriving DecidableEq, Repr

/-- Subscribing an observer runs the producer afresh: its side effects are
appended to the console and the observer is handed the full guarded
notification sequence of this execution. -/
def Observable.subscribeRun {α : Type} (o : Observable α) (c : Console) :
    List (Notification α) × Console :=
  (guardTrace o.raw, ⟨c.out ++ o.log⟩)

/-- The component's cold observable: logs
`'Observable is being executed'` and emits `'Hello'` on every
subscription. -/
def coldObservable : Observable String :=
  ⟨[Notification.next "Hello"], ["Observable is being executed"]⟩

/-- C6: cold semantics — subscribing observers A and then B to any cold
Observable runs the producer twice, once per subscription: the console
records the producer's side effects twice over, each observer receives
the complete notification sequence of its own independent execution, and
both executions produce the same sequence regardless of the ambient
console state.  Instantiated at the component's `coldObservable`, the
execution log appears twice and both observers receive `'Hello'`. -/
theorem cold_producer_runs_per_subscription :
    (∀ (α : Type) (o : Observable α) (c : Console),
        (o.subscribeRun c).1 = guardTrace o.raw
          ∧ (o.subscribeRun ((o.subscribeRun c).2)).1 = guardTrace o.raw
          ∧ ((o.subscribeRun ((o.subscribeRun c).2)).2).out = c.out ++ o.log ++ o.log)
      ∧ (coldObservable.subscribeRun
            ((coldObservable.subscribeRun ⟨[]⟩).2)).2.out
          = ["Observable is being executed", "Observable is being executed"]
      ∧ (coldObservable.subscribeRun ⟨[]⟩).1 = [Notification.next "Hello"]
      ∧ (coldObservable.subscribeRun
            ((coldObservable.subscribeRun ⟨[]⟩).2)).1 = [Notification.next "Hello"] :=
  ⟨fun _ o c => ⟨rfl, rfl, rfl⟩,
    by decide, by decide, by decide⟩

/-- Modelled from the spec: a Subscription owns a cleanup callback,
tracked here by how often its side effects have run (`cleanups`), and a
closed flag.  `unsubscribe` runs the cleanup once and closes the
subscription; on an already-closed subscription it does nothing (and no
error is raised — the operation is total). -/
structure SubscriptionState where
  closed : Bool
  cleanups : Nat
  deriving DecidableEq, Repr

/-- Cancel the subscription: run the cleanup unless already closed. -/
def unsubscribe (s : SubscriptionState) : SubscriptionState :=
  if s.closed then s else ⟨true, s.cleanups + 1⟩

/-- Terminal notification handling (`complete`/`error`) tears the
subscription down the same way: cleanup runs and the subscription
closes. -/
def onTerminal (s : SubscriptionState) : SubscriptionState :=
  if s.closed then s else ⟨true, s.cleanups + 1⟩

/-- C7: `unsubscribe` is idempotent — calling it twice equals calling it
once, the cleanup side effects run at most once beyond the starting count,
and calling `unsubscribe` after the subscription was torn down by a
terminal notification (completion or error) is a no-op. -/
theorem unsubscribe_idempotent :
    ∀ (s : SubscriptionState),
      unsubscribe (unsubscribe s) = unsubscribe s
        ∧ (unsubscribe (unsubscribe s)).cleanups ≤ s.cleanups + 1
        ∧ unsubscribe (onTerminal s) = onTerminal s := by
  intro s
  by_cases h : s.closed <;>
    simp [unsubscribe, onTerminal, h]

/-- A JSON-object HTTP response, as string key/value pairs; indexing a
missing key yields `none` (TypeScript's `undefined`). -/
def lookupKey (r : List (String × String)) (k : String) : Option String :=
  (r.find? (fun p => p.1 == k)).map (fun p => p.2)

/-- The record of HTTP requests issued so far. -/
structure HttpWorld where
  requests : List String
  deriving DecidableEq, Repr

/-- A network-backed Observable: a value whose producer runs only at
subscription time, against the server's url-to-response map, threading the
request record. -/
structure EffObservable (α : Type) where
  run : (String → List (String × String)) → HttpWorld →
    List (Notification α) × HttpWorld

/-- Modelled from the spec: Angular's `HttpClient.get` (external to this
repository) — a lazy network-backed Observable; no request is made until
a subscription runs it, and each subscription records one request and
emits the server's response for the url, then completes. -/
def httpGet (url : String) : EffObservable (List (String × String)) :=
  ⟨fun server w =>
    ([Notification.next (server url), Notification.complete],
      ⟨w.requests ++ [url]⟩)⟩

/-- The `map` operator on network-backed Observables. -/
def mapEff {α β : Type} (f : α → β) (o : EffObservable α) : EffObservable β :=
  ⟨fun server w => (mapTrace f (o.run server w).1, (o.run server w).2)⟩

/-- The component's `getData()`:
`this.http.get('https://api.example.com/data').pipe(map(response => response['data']))`.
Constructing it performs no request — effects happen only in `run`. -/
def getData : EffObservable (Option String) :=
  mapEff (fun resp => lookupKey resp "data") (httpGet "https://api.example.com/data")

/-- C10: for every server and every ambient request record, one
subscription to `getData()` issues exactly one request, to
`https://api.example.com/data`, and delivers exactly one value — the
`'data'` field of the response, `none` when the response lacks a `'data'`
key — followed by completion; the observable itself is a pure value, so
merely calling `getData` touches no request record.  Instantiated at a
server whose response has no `'data'` key, the delivered value is
`none`. -/
theorem getData_emits_data_field :
    (∀ (server : String → List (String × String)) (w : HttpWorld),
        (getData.run server w).1
            = [Notification.next (lookupKey (server "https://api.example.com/data") "data"),
               Notification.complete]
          ∧ (getData.run server w).2.requests
              = w.requests ++ ["https://api.example.com/data"])
      ∧ (getData.run (fun _ => []) ⟨[]⟩).1
          = [Notification.next none, Notification.complete]
      ∧ (getData.run (fun _ => [("data", "payload")]) ⟨[]⟩).1
          = [Notification.next (some "payload"), Notification.complete] :=
  ⟨fun server w => ⟨rfl, rfl⟩, by decide, by decide⟩
